import Mathlib

/-!
Shallow embedding of the stock-ledger and SKU subsystem of
`apps/products/models.py` (bizpos).

Database state is passed explicitly.  `transaction.atomic` blocks that
roll back on an exception are modelled by `Except`: an `.error` result
discards every intermediate state, so the caller keeps the pre-call
state (full rollback).  Timestamps (`created_at`, timestamp-derived
batch numbers) are modelled by a monotonic `clock : Nat` threaded
through the product state.  `Decimal` cost values are modelled as `Int`
(costs are only copied, never computed with, in the embedded code).
-/

namespace BizPos

/-- Python `str.split()` word scanner over the character list:
splits on runs of whitespace and drops empty pieces. -/
def flushWord (acc : List Char) (rest : List String) : List String :=
  if acc.isEmpty then rest else String.mk acc.reverse :: rest

def wordsAux : List Char → List Char → List String
  | [], acc => flushWord acc []
  | c :: cs, acc =>
      if c.isWhitespace then flushWord acc (wordsAux cs [])
      else wordsAux cs (c :: acc)

/-- Python `name.split()`. -/
def pywords (s : String) : List String := wordsAux s.data []

/-- Python `s.upper()` (ASCII, as used on plain names). -/
def pyUpper (s : String) : String := String.mk (s.data.map Char.toUpper)

/-- Python `s[:n]`. -/
def pyTake (s : String) (n : Nat) : String := String.mk (s.data.take n)

/-- Python `s.ljust(n, c)`. -/
def pyLjust (s : String) (n : Nat) (c : Char) : String :=
  String.mk (s.data ++ List.replicate (n - s.data.length) c)

/-- Python `s.zfill(n)` (for non-negative numerals, as used here). -/
def pyZfill (s : String) (n : Nat) : String :=
  String.mk (List.replicate (n - s.data.length) '0' ++ s.data)

/-- Decimal digits of `n`, most significant first; fuel-structural so it
evaluates by kernel reduction.  `decChars` supplies sufficient fuel. -/
def decCharsAux : Nat → Nat → List Char
  | 0, _ => []
  | fuel + 1, n =>
      if n < 10 then [Char.ofNat (48 + n)]
      else decCharsAux fuel (n / 10) ++ [Char.ofNat (48 + n % 10)]

def decChars (n : Nat) : List Char := decCharsAux (n + 1) n

/-- Python `str(n)` for a non-negative counter value. -/
def pyStr (n : Nat) : String := String.mk (decChars n)

/-- The inner `prefix(name)` helper of `generate_sku` /
`generate_preview_sku` (the two copies in the source are textually
identical).  `none` models the `IndexError` raised by `words[0]` when
the name has no words (empty or all-whitespace string); that exception
propagates to the caller. -/
def prefixOf (name : String) : Option String :=
  match pywords name with
  | [] => none
  | w :: rest =>
      let first := pyUpper (pyTake w 3)
      let second := match rest with
        | [] => ""
        | w2 :: _ => pyUpper (pyTake w2 2)
      let result := first ++ second
      if result.data.length > 3 then some (pyTake result 3)
      else some (pyLjust result 3 'X')

/-- Table `ProductSKUSequence`: one `(prefix, last_number)` row per SKU
prefix, `last_number` defaulting to 0 on creation. -/
abbrev SeqState := List (String × Nat)

/-- Reads `ProductSKUSequence.objects.get(prefix=p).last_number`. -/
def lookupSeq (st : SeqState) (p : String) : Option Nat :=
  (List.find? (fun e => e.fst = p) st).map (fun e => e.snd)

/-- The locked `get_or_create` + `last_number += 1` + `save` step of
`generate_sku`: returns the allocated number and the updated table. -/
def bumpSeq (st : SeqState) (p : String) : Nat × SeqState :=
  match List.find? (fun e => e.fst = p) st with
  | some e =>
      (e.snd + 1, List.map (fun e2 => if e2.fst = p then (p, e.snd + 1) else e2) st)
  | none => (1, st ++ [(p, 1)])

/-- Model of `generate_sku(category_name, product_name)`.  `allocFails` abstracts
a datastore failure inside the `try` block (the only thing the
`except` clause catches); `fallback` abstracts the uuid+timestamp
fallback SKU built there.  The prefix computation happens before the
`try`, so its `IndexError` (modelled as `none`) is never turned into
the fallback. -/
def generate_sku (st : SeqState) (category_name product_name : String)
    (allocFails : Bool) (fallback : String) : Option (String × SeqState) :=
  match prefixOf category_name, prefixOf product_name with
  | some cp, some pa =>
      let skp := cp ++ "-" ++ pa
      if allocFails then some (fallback, st)
      else
        let r := bumpSeq st skp
        some (skp ++ "-" ++ pyZfill (pyStr r.fst) 4, r.snd)
  | _, _ => none

/-- Model of `Product.generate_preview_sku(category_name, product_name)`.  The
source performs no write (it only `get`s the sequence row), so the
returned state is the input state. -/
def generate_preview_sku (st : SeqState) (category_name product_name : Option String) :
    Option (String × SeqState) :=
  let cn := match category_name with
    | none => "GEN"
    | some c => if c = "" then "GEN" else c
  let pn := match product_name with
    | none => "PRD"
    | some p => if p = "" then "PRD" else p
  match prefixOf cn, prefixOf pn with
  | some cp, some pa =>
      let skp := cp ++ "-" ++ pa
      let next_number := (lookupSeq st skp).getD 0 + 1
      some (skp ++ "-" ++ pyZfill (pyStr next_number) 4, st)
  | _, _ => none

/-- A `Stock` row: one batch/lot of one product. -/
structure Stock where
  batch_no : String
  expiry_date : Option Int
  quantity : Int
  unit_cost : Int
  location : String
  is_active : Bool
  created_at : Nat
deriving DecidableEq, Repr

inductive MovementType
  | IN | OUT | ADJUST | TRANSFER | RETURN | DAMAGE
deriving DecidableEq, Repr

/-- A persisted `StockMovement` row; `stock` holds the batch number of
the related batch (the FK), if any. -/
structure StockMovement where
  stock : Option String
  movement_type : MovementType
  quantity : Int
  unit_cost : Int
  reference : String
  note : String
deriving DecidableEq, Repr

/-- The datastore state of one product: its cached aggregate
`quantity`, its master-data `unit_cost`, its `Stock` rows, its
`StockMovement` ledger (append-only, in creation order), and the
clock used for `created_at` values and timestamp-derived names. -/
structure ProductState where
  quantity : Int
  unit_cost : Int
  stock_entries : List Stock
  movements : List StockMovement
  clock : Nat
deriving DecidableEq, Repr

def sumQty (l : List Stock) : Int :=
  l.foldr (fun b acc => b.quantity + acc) 0

/-- Value of `stock_entries.filter(is_active=True).aggregate(Sum('quantity')) or 0`. -/
def activeTotal (s : ProductState) : Int :=
  sumQty (s.stock_entries.filter (fun b => b.is_active))

/-- Model of `Product.update_quantity_from_stock`.  The `Bool` records whether a
write (`Product.objects.filter(pk=...).update(...)`) was performed. -/
def update_quantity_from_stock (s : ProductState) : ProductState × Bool :=
  let total := activeTotal s
  if s.quantity ≠ total then ({ s with quantity := total }, true)
  else (s, false)

/-- Model of `StockMovement.clean`. -/
def movementClean (movement_type : MovementType) (quantity : Int) :
    Except String Unit :=
  if movement_type = .IN ∧ quantity ≤ 0 then
    .error "Stock IN movements must have positive quantity"
  else if movement_type = .OUT ∧ quantity ≥ 0 then
    .error "Stock OUT movements must have negative quantity"
  else .ok ()

/-- Write `q` into the row keyed by `bno` (`self.stock.save(...)`;
`(product, batch_no)` is unique, so at most one row matches). -/
def setStockQty (entries : List Stock) (bno : String) (q : Int) : List Stock :=
  entries.map (fun b => if b.batch_no = bno then { b with quantity := q } else b)

/-- Model of `StockMovement.save` for a freshly built movement: `clean()`, then
inside `transaction.atomic()` insert the movement row, apply the
signed delta to the related batch (hard failure if the batch would go
negative — the whole transaction rolls back, modelled by `.error`
discarding the intermediate state), and finally recompute the
product aggregate.  `stockObj` is the in-memory batch object the
caller passes (its `quantity` is the caller's fetched snapshot). -/
def movementSave (s : ProductState) (stockObj : Option Stock)
    (movement_type : MovementType) (quantity unit_cost : Int)
    (reference note : String) : Except String (ProductState × StockMovement) :=
  let m : StockMovement :=
    { stock := stockObj.map (fun b => b.batch_no), movement_type := movement_type,
      quantity := quantity, unit_cost := unit_cost, reference := reference, note := note }
  match movementClean movement_type quantity with
  | .error e => .error e
  | .ok _ =>
      let s1 := { s with movements := s.movements ++ [m] }
      match stockObj with
      | some b =>
          let newq := b.quantity + quantity
          if newq < 0 then
            .error ("Stock batch " ++ b.batch_no ++ " would have negative quantity")
          else
            let s2 := { s1 with stock_entries := setStockQty s1.stock_entries b.batch_no newq }
            .ok ((update_quantity_from_stock s2).fst, m)
      | none => .ok ((update_quantity_from_stock s1).fst, m)

/-- Model of `Product.add_stock`.  `batch_no = none` models the omitted argument
(timestamp-derived default).  A newly created `Stock` row goes through
`Stock.save`, which triggers an aggregate recompute. -/
def add_stock (s : ProductState) (quantity unit_cost : Int)
    (batch_no : Option String) (expiry_date : Option Int) (location : Option String)
    (reference note : String) : Except String (ProductState × Stock) :=
  let bno := match batch_no with
    | none => "BATCH-" ++ pyStr s.clock
    | some b => b
  let created := (List.find? (fun b => b.batch_no = bno) s.stock_entries).isNone
  let stockObj := match List.find? (fun b => b.batch_no = bno) s.stock_entries with
    | some b => b
    | none =>
        { batch_no := bno, expiry_date := expiry_date, quantity := 0,
          unit_cost := unit_cost, location := (location.getD ""), is_active := true,
          created_at := s.clock }
  let s1 :=
    if created then
      (update_quantity_from_stock
        { s with stock_entries := s.stock_entries ++ [stockObj], clock := s.clock + 1 }).fst
    else s
  let noteD := if note = "" then "Stock added - Batch: " ++ bno else note
  match movementSave s1 (some stockObj) .IN quantity unit_cost reference noteD with
  | .error e => .error e
  | .ok (s2, _) =>
      match List.find? (fun b => b.batch_no = bno) s2.stock_entries with
      | some b2 => .ok (s2, b2)
      | none => .ok (s2, stockObj)

/-- Comparison for `order_by('expiry_date', 'created_at')` (FIFO); a NULL
expiry sorts first, matching SQLite ascending NULL ordering. -/
def fifoLe (a b : Stock) : Bool :=
  match a.expiry_date, b.expiry_date with
  | none, none => a.created_at ≤ b.created_at
  | none, some _ => true
  | some _, none => false
  | some x, some y => x < y || (x == y && a.created_at ≤ b.created_at)

/-- Comparison for `order_by('-created_at')` (LIFO / most recent first). -/
def lifoLe (a b : Stock) : Bool := b.created_at ≤ a.created_at

def insertSorted (le : Stock → Stock → Bool) (x : Stock) : List Stock → List Stock
  | [] => [x]
  | y :: ys => if le x y then x :: y :: ys else y :: insertSorted le x ys

def sortStocks (le : Stock → Stock → Bool) (l : List Stock) : List Stock :=
  l.foldr (insertSorted le) []

/-- The greedy consumption loop of `Product.remove_stock`: walks the
fetched, ordered batch snapshots, creating one OUT movement per batch
touched, and returns the final state, the created movements and the
remaining (still unsatisfied) quantity. -/
def removeLoop (reference note : String) :
    ProductState → List Stock → Int → List StockMovement →
    Except String (ProductState × List StockMovement × Int)
  | s, [], remaining, acc => .ok (s, acc, remaining)
  | s, b :: rest, remaining, acc =>
      if remaining ≤ 0 then .ok (s, acc, remaining)
      else
        let remove_from_batch := min remaining b.quantity
        let noteD := if note = "" then "Stock removed - Batch: " ++ b.batch_no else note
        match movementSave s (some b) .OUT (-remove_from_batch) b.unit_cost reference noteD with
        | .error e => .error e
        | .ok (s1, m) => removeLoop reference note s1 rest (remaining - remove_from_batch) (acc ++ [m])

/-- Model of `Product.remove_stock`. -/
def remove_stock (s : ProductState) (quantity : Int) (reference note : String)
    (use_fifo : Bool) : Except String (ProductState × List StockMovement) :=
  if quantity ≤ 0 then .error "Quantity must be positive"
  else
    let eligible := s.stock_entries.filter (fun b => b.is_active && b.quantity > 0)
    let ordered := if use_fifo then sortStocks fifoLe eligible else sortStocks lifoLe eligible
    match removeLoop reference note s ordered quantity [] with
    | .error e => .error e
    | .ok (s1, movements_created, remaining) =>
        if remaining > 0 then
          .error ("Insufficient stock. Requested: " ++ toString quantity ++
                  ", Available: " ++ toString (quantity - remaining))
        else .ok (s1, movements_created)

/-- Value of `self.stock_entries.filter(is_active=True).order_by('-created_at').first()`. -/
def mostRecentActive (s : ProductState) : Option Stock :=
  (sortStocks lifoLe (s.stock_entries.filter (fun b => b.is_active))).head?

/-- Model of `Product.adjust_stock`. -/
def adjust_stock (s : ProductState) (new_total_quantity : Int)
    (reference note : String) : Except String (ProductState × Option StockMovement) :=
  let current_quantity := s.quantity
  let difference := new_total_quantity - current_quantity
  if difference = 0 then .ok (s, none)
  else if difference > 0 then
    let noteD := if note = "" then
        "Stock adjustment: " ++ toString current_quantity ++ " → " ++ toString new_total_quantity
      else note
    match mostRecentActive s with
    | some recent_stock =>
        match movementSave s (some recent_stock) .ADJUST difference
            recent_stock.unit_cost reference noteD with
        | .error e => .error e
        | .ok (s1, m) => .ok (s1, some m)
    | none =>
        let adj_stock : Stock :=
          { batch_no := "ADJ-" ++ pyStr s.clock, expiry_date := none, quantity := 0,
            unit_cost := s.unit_cost, location := "", is_active := true,
            created_at := s.clock }
        let sA := (update_quantity_from_stock
          { s with stock_entries := s.stock_entries ++ [adj_stock], clock := s.clock + 1 }).fst
        match movementSave sA (some adj_stock) .ADJUST difference s.unit_cost reference noteD with
        | .error e => .error e
        | .ok (s1, m) => .ok (s1, some m)
  else
    match remove_stock s (abs difference) reference
        (if note = "" then "Stock adjustment" else note) true with
    | .error e => .error e
    | .ok (s1, _) => .ok (s1, none)

/-- One call into the stock-operations layer. -/
inductive Op
  | add (quantity unit_cost : Int) (batch_no : Option String)
      (expiry_date : Option Int) (location : Option String) (reference note : String)
  | remove (quantity : Int) (reference note : String) (use_fifo : Bool)
  | adjust (new_total_quantity : Int) (reference note : String)

def applyOp (s : ProductState) : Op → Except String ProductState
  | .add q c b e l r n => (add_stock s q c b e l r n).map (fun p => p.fst)
  | .remove q r n f => (remove_stock s q r n f).map (fun p => p.fst)
  | .adjust t r n => (adjust_stock s t r n).map (fun p => p.fst)

/-- Run a sequence of operations; the whole run fails on the first
failing operation. -/
def runOps : ProductState → List Op → Except String ProductState
  | s, [] => .ok s
  | s, op :: ops =>
      match applyOp s op with
      | .error e => .error e
      | .ok s1 => runOps s1 ops

/-- A freshly created product with no stock history. -/
def emptyProduct : ProductState :=
  { quantity := 0, unit_cost := 0, stock_entries := [], movements := [], clock := 0 }

/-- Stored quantity matches the sum over active batches. -/
def consistent (s : ProductState) : Prop := s.quantity = activeTotal s

/-- Datastore check constraint `stock_quantity_non_negative`. -/
def nonnegBatches (s : ProductState) : Prop :=
  ∀ b ∈ s.stock_entries, 0 ≤ b.quantity

theorem activeTotal_mk (q uc : Int) (es : List Stock) (ms : List StockMovement) (ck : Nat) :
    activeTotal ⟨q, uc, es, ms, ck⟩ = sumQty (es.filter (fun b => b.is_active)) := rfl

theorem update_fst_consistent (s : ProductState) :
    consistent (update_quantity_from_stock s).fst := by
  unfold consistent update_quantity_from_stock activeTotal
  by_cases h : s.quantity = sumQty (List.filter (fun b => b.is_active) s.stock_entries)
  · simp [h]
  · simp [h]

theorem update_fst_movements (s : ProductState) :
    ((update_quantity_from_stock s).fst).movements = s.movements := by
  unfold update_quantity_from_stock
  by_cases h : s.quantity = activeTotal s <;> simp [h]

theorem update_fst_entries (s : ProductState) :
    ((update_quantity_from_stock s).fst).stock_entries = s.stock_entries := by
  unfold update_quantity_from_stock
  by_cases h : s.quantity = activeTotal s <;> simp [h]

theorem movementSave_ok_consistent {s : ProductState} {ob : Option Stock}
    {mt : MovementType} {q uc : Int} {r n : String} {s' : ProductState} {m : StockMovement}
    (h : movementSave s ob mt q uc r n = .ok (s', m)) : consistent s' := by
  unfold movementSave at h
  split at h
  · simp at h
  · split at h
    · dsimp only at h
      split at h
      · simp at h
      · simp at h
        rw [← h.1]
        exact update_fst_consistent _
    · simp at h
      rw [← h.1]
      exact update_fst_consistent _

theorem movementSave_ok_movements {s : ProductState} {ob : Option Stock}
    {mt : MovementType} {q uc : Int} {r n : String} {s' : ProductState} {m : StockMovement}
    (h : movementSave s ob mt q uc r n = .ok (s', m)) :
    s'.movements = s.movements ++ [m] := by
  unfold movementSave at h
  split at h
  · simp at h
  · split at h
    · dsimp only at h
      split at h
      · simp at h
      · simp at h
        obtain ⟨h1, h2⟩ := h
        rw [← h1, update_fst_movements, ← h2]
    · simp at h
      obtain ⟨h1, h2⟩ := h
      rw [← h1, update_fst_movements, ← h2]

theorem movementSave_ok_nonneg {s : ProductState} {ob : Option Stock}
    {mt : MovementType} {q uc : Int} {r n : String} {s' : ProductState} {m : StockMovement}
    (hs : nonnegBatches s) (h : movementSave s ob mt q uc r n = .ok (s', m)) :
    nonnegBatches s' := by
  unfold movementSave at h
  split at h
  · simp at h
  · split at h
    · rename_i b
      dsimp only at h
      split at h
      · simp at h
      · rename_i hnot
        simp at h
        obtain ⟨h1, _⟩ := h
        rw [← h1]
        intro x hx
        rw [update_fst_entries] at hx
        simp only [setStockQty, List.mem_map] at hx
        obtain ⟨y, hy, hxy⟩ := hx
        by_cases hb : y.batch_no = b.batch_no
        · rw [if_pos hb] at hxy
          rw [← hxy]
          simpa using by omega
        · rw [if_neg hb] at hxy
          rw [← hxy]
          exact hs y hy
    · simp at h
      obtain ⟨h1, _⟩ := h
      rw [← h1]
      intro x hx
      rw [update_fst_entries] at hx
      exact hs x hx

theorem movementSave_neg_fails (s : ProductState) (b : Stock) (mt : MovementType)
    (q uc : Int) (r n : String) (h : b.quantity + q < 0) :
    ∃ e, movementSave s (some b) mt q uc r n = .error e := by
  unfold movementSave
  cases hc : movementClean mt q with
  | error e => exact ⟨e, rfl⟩
  | ok u =>
      refine ⟨"Stock batch " ++ b.batch_no ++ " would have negative quantity", ?_⟩
      dsimp only
      rw [if_pos h]

theorem movementSave_in_nonpos (s : ProductState) (ob : Option Stock)
    (q uc : Int) (r n : String) (h : q ≤ 0) :
    movementSave s ob .IN q uc r n =
      .error "Stock IN movements must have positive quantity" := by
  simp [movementSave, movementClean, h]

theorem movementSave_out_eq (s : ProductState) (b : Stock) (rm uc : Int) (r n : String)
    (h1 : 0 < rm) (h2 : rm ≤ b.quantity) :
    movementSave s (some b) .OUT (-rm) uc r n =
      .ok ((update_quantity_from_stock
            { s with movements := s.movements ++ [⟨some b.batch_no, .OUT, -rm, uc, r, n⟩],
                     stock_entries :=
                       setStockQty s.stock_entries b.batch_no (b.quantity + -rm) }).fst,
           ⟨some b.batch_no, .OUT, -rm, uc, r, n⟩) := by
  have ha : ¬ (-rm ≥ (0:Int)) := by omega
  have hb : ¬ (b.quantity + -rm < 0) := by omega
  simp [movementSave, movementClean, ha, hb]

theorem movementSave_adjust_eq (s : ProductState) (b : Stock) (d uc : Int) (r n : String)
    (h2 : 0 ≤ b.quantity + d) :
    movementSave s (some b) .ADJUST d uc r n =
      .ok ((update_quantity_from_stock
            { s with movements := s.movements ++ [⟨some b.batch_no, .ADJUST, d, uc, r, n⟩],
                     stock_entries :=
                       setStockQty s.stock_entries b.batch_no (b.quantity + d) }).fst,
           ⟨some b.batch_no, .ADJUST, d, uc, r, n⟩) := by
  have hb : ¬ (b.quantity + d < 0) := by omega
  simp [movementSave, movementClean, hb]

theorem sumQty_nil : sumQty [] = 0 := rfl

theorem sumQty_cons (b : Stock) (l : List Stock) :
    sumQty (b :: l) = b.quantity + sumQty l := rfl

theorem mem_insertSorted (le : Stock → Stock → Bool) (x a : Stock) (l : List Stock) :
    a ∈ insertSorted le x l ↔ a = x ∨ a ∈ l := by
  induction l with
  | nil => simp [insertSorted]
  | cons y ys ih =>
      unfold insertSorted
      by_cases hle : le x y
      · simp [hle, List.mem_cons]
      · simp [hle, List.mem_cons, ih]
        tauto

theorem sumQty_insertSorted (le : Stock → Stock → Bool) (x : Stock) (l : List Stock) :
    sumQty (insertSorted le x l) = x.quantity + sumQty l := by
  induction l with
  | nil => rfl
  | cons y ys ih =>
      unfold insertSorted
      by_cases hle : le x y
      · simp [hle, sumQty_cons]
      · simp [hle, sumQty_cons, ih]
        omega

theorem mem_sortStocks (le : Stock → Stock → Bool) (l : List Stock) (a : Stock) :
    a ∈ sortStocks le l ↔ a ∈ l := by
  induction l with
  | nil => simp [sortStocks]
  | cons y ys ih =>
      show a ∈ insertSorted le y (sortStocks le ys) ↔ _
      rw [mem_insertSorted]
      simp [List.mem_cons, ih]

theorem sumQty_sortStocks (le : Stock → Stock → Bool) (l : List Stock) :
    sumQty (sortStocks le l) = sumQty l := by
  induction l with
  | nil => rfl
  | cons y ys ih =>
      show sumQty (insertSorted le y (sortStocks le ys)) = _
      rw [sumQty_insertSorted, ih, sumQty_cons]

theorem sumQty_nonneg (l : List Stock) (h : ∀ b ∈ l, 0 ≤ b.quantity) :
    0 ≤ sumQty l := by
  induction l with
  | nil => simp [sumQty_nil]
  | cons y ys ih =>
      rw [sumQty_cons]
      have h1 := h y (List.mem_cons_self _ _)
      have h2 := ih (fun b hb => h b (List.mem_cons_of_mem _ hb))
      omega

theorem sumQty_pos_nonneg (l : List Stock) (h : ∀ b ∈ l, 0 < b.quantity) :
    0 ≤ sumQty l :=
  sumQty_nonneg l (fun b hb => le_of_lt (h b hb))

theorem sumQty_filter_pos (l : List Stock) (h : ∀ b ∈ l, 0 ≤ b.quantity) :
    sumQty (l.filter (fun b => b.is_active && b.quantity > 0)) =
    sumQty (l.filter (fun b => b.is_active)) := by
  induction l with
  | nil => rfl
  | cons y ys ih =>
      have hy := h y (List.mem_cons_self _ _)
      have ihy := ih (fun b hb => h b (List.mem_cons_of_mem _ hb))
      by_cases ha : y.is_active
      · by_cases hq : (0:Int) < y.quantity
        · simp [List.filter_cons, ha, hq, sumQty_cons, ihy]
        · have hz : y.quantity = 0 := by omega
          simp [List.filter_cons, ha, hq, sumQty_cons, ihy, hz]
      · simp [List.filter_cons, ha, ihy]

/-- Sum of the removed magnitudes of a list of movements. -/
def sumOut (ms : List StockMovement) : Int :=
  ms.foldr (fun m acc => -m.quantity + acc) 0

theorem sumOut_nil : sumOut [] = 0 := rfl

theorem sumOut_cons (m : StockMovement) (ms : List StockMovement) :
    sumOut (m :: ms) = -m.quantity + sumOut ms := rfl

theorem min_split (R q0 S : Int) (_hq : 0 < q0) (hS : 0 ≤ S) :
    min R (q0 + S) = min R q0 + min (R - min R q0) S := by
  rcases le_total R q0 with h | h
  · rw [min_eq_left h, min_eq_left (by omega : R ≤ q0 + S)]
    simp [min_eq_left hS]
  · rw [min_eq_right h]
    rcases le_total (R - q0) S with h2 | h2
    · rw [min_eq_left h2, min_eq_left (by omega : R ≤ q0 + S)]
      omega
    · rw [min_eq_right h2, min_eq_right (by omega : q0 + S ≤ R)]

theorem removeLoop_spec (reference note : String) (l : List Stock) :
    ∀ (s : ProductState) (remaining : Int) (acc : List StockMovement),
    (∀ b ∈ l, 0 < b.quantity) → 0 ≤ remaining →
    ∃ s' newms,
      removeLoop reference note s l remaining acc =
        .ok (s', acc ++ newms, remaining - min remaining (sumQty l)) ∧
      (∀ m ∈ newms, m.movement_type = .OUT ∧ m.quantity < 0) ∧
      sumOut newms = min remaining (sumQty l) ∧
      s'.movements = s.movements ++ newms ∧
      (consistent s' ∨ s' = s) := by
  induction l with
  | nil =>
      intro s remaining acc hpos hrem
      refine ⟨s, [], ?_, by simp, ?_, by simp, Or.inr rfl⟩
      · simp [removeLoop, sumQty_nil, min_eq_right hrem]
      · simp [sumOut_nil, sumQty_nil, min_eq_right hrem]
  | cons b rest ih =>
      intro s remaining acc hpos hrem
      have hb : 0 < b.quantity := hpos b (List.mem_cons_self _ _)
      have hS : 0 ≤ sumQty rest :=
        sumQty_pos_nonneg rest (fun x hx => hpos x (List.mem_cons_of_mem _ hx))
      by_cases hr0 : remaining ≤ 0
      · have hr : remaining = 0 := by omega
        subst hr
        have hm0 : min (0:Int) (sumQty (b :: rest)) = 0 := by
          rw [sumQty_cons]
          exact min_eq_left (add_nonneg (le_of_lt hb) hS)
        refine ⟨s, [], ?_, by simp, ?_, by simp, Or.inr rfl⟩
        · simp [removeLoop, hm0]
        · simp [sumOut_nil, hm0]
      · have hrpos : 0 < remaining := by omega
        set rm := min remaining b.quantity with hrm_def
        have hrm_pos : 0 < rm := lt_min hrpos hb
        have hrm_le : rm ≤ b.quantity := min_le_right _ _
        set noteD := if note = "" then "Stock removed - Batch: " ++ b.batch_no else note
          with hnoteD
        set mOut : StockMovement :=
          ⟨some b.batch_no, .OUT, -rm, b.unit_cost, reference, noteD⟩ with hmOut
        set s1 := (update_quantity_from_stock
          { s with movements := s.movements ++ [mOut],
                   stock_entries := setStockQty s.stock_entries b.batch_no (b.quantity + -rm) }).fst
          with hs1
        have hstep : removeLoop reference note s (b :: rest) remaining acc =
            removeLoop reference note s1 rest (remaining - rm) (acc ++ [mOut]) := by
          rw [removeLoop]
          rw [if_neg hr0]
          dsimp only
          rw [movementSave_out_eq s b rm b.unit_cost reference noteD hrm_pos hrm_le]
        obtain ⟨s', newms, heq, hout, hsum, hmov, hcons⟩ :=
          ih s1 (remaining - rm) (acc ++ [mOut])
            (fun x hx => hpos x (List.mem_cons_of_mem _ hx)) (by omega)
        have hminsplit : min remaining (sumQty (b :: rest)) =
            rm + min (remaining - rm) (sumQty rest) := by
          rw [sumQty_cons, hrm_def]
          exact min_split remaining b.quantity (sumQty rest) hb hS
        refine ⟨s', mOut :: newms, ?_, ?_, ?_, ?_, ?_⟩
        · rw [hstep, heq, hminsplit, sub_sub]
          simp
        · intro m hm
          rcases List.mem_cons.mp hm with hm | hm
          · subst hm
            refine ⟨rfl, ?_⟩
            show -rm < 0
            omega
          · exact hout m hm
        · rw [sumOut_cons, hsum, hminsplit, hmOut]
          simp
        · rw [hmov, hs1, update_fst_movements]
          simp
        · rcases hcons with hc | hc
          · exact Or.inl hc
          · subst hc
            exact Or.inl (update_fst_consistent _)

theorem eligible_pos (le : Stock → Stock → Bool) (s : ProductState) :
    ∀ b ∈ sortStocks le (s.stock_entries.filter (fun x => x.is_active && x.quantity > 0)),
      0 < b.quantity := by
  intro b hb
  rw [mem_sortStocks] at hb
  have h := (List.mem_filter.mp hb).2
  simp at h
  exact h.2

theorem sumQty_ordered (le : Stock → Stock → Bool) (s : ProductState)
    (hs : nonnegBatches s) :
    sumQty (sortStocks le (s.stock_entries.filter (fun x => x.is_active && x.quantity > 0))) =
      activeTotal s := by
  rw [sumQty_sortStocks, sumQty_filter_pos _ hs, activeTotal]

theorem activeTotal_nonneg (s : ProductState) (hs : nonnegBatches s) :
    0 ≤ activeTotal s :=
  sumQty_nonneg _ (fun b hb => hs b (List.mem_of_mem_filter hb))

theorem remove_stock_ok (s : ProductState) (q : Int) (r n : String)
    (hs : nonnegBatches s) (hq : 0 < q) (hle : q ≤ activeTotal s) :
    ∃ s' ms, remove_stock s q r n true = .ok (s', ms) ∧
      (∀ m ∈ ms, m.movement_type = .OUT ∧ m.quantity < 0) ∧
      sumOut ms = q ∧ s'.movements = s.movements ++ ms ∧
      (consistent s' ∨ s' = s) := by
  obtain ⟨s', newms, heq, hout, hsum, hmov, hcons⟩ :=
    removeLoop_spec r n
      (sortStocks fifoLe (s.stock_entries.filter (fun b => b.is_active && b.quantity > 0)))
      s q [] (eligible_pos fifoLe s) (le_of_lt hq)
  have hsq := sumQty_ordered fifoLe s hs
  have hmin : min q (sumQty (sortStocks fifoLe
      (s.stock_entries.filter (fun b => b.is_active && b.quantity > 0)))) = q := by
    rw [hsq]
    exact min_eq_left hle
  rw [hmin] at heq hsum
  simp only [List.nil_append, sub_self] at heq
  refine ⟨s', newms, ?_, hout, hsum, by simpa using hmov, hcons⟩
  unfold remove_stock
  rw [if_neg (by omega : ¬ q ≤ 0)]
  dsimp only
  rw [if_pos rfl, heq]
  dsimp only
  rw [if_neg (by omega : ¬ (0:Int) > 0)]

theorem remove_stock_insufficient (s : ProductState) (q : Int) (r n : String)
    (hs : nonnegBatches s) (hgt : activeTotal s < q) :
    remove_stock s q r n true =
      .error ("Insufficient stock. Requested: " ++ toString q ++
              ", Available: " ++ toString (activeTotal s)) := by
  have h0 : 0 ≤ activeTotal s := activeTotal_nonneg s hs
  obtain ⟨s', newms, heq, hout, hsum, hmov, hcons⟩ :=
    removeLoop_spec r n
      (sortStocks fifoLe (s.stock_entries.filter (fun b => b.is_active && b.quantity > 0)))
      s q [] (eligible_pos fifoLe s) (by omega)
  have hsq := sumQty_ordered fifoLe s hs
  have hmin : min q (sumQty (sortStocks fifoLe
      (s.stock_entries.filter (fun b => b.is_active && b.quantity > 0)))) = activeTotal s := by
    rw [hsq]
    exact min_eq_right (le_of_lt hgt)
  rw [hmin] at heq
  unfold remove_stock
  rw [if_neg (by omega : ¬ q ≤ 0)]
  dsimp only
  rw [if_pos rfl]
  rw [heq]
  dsimp only
  rw [if_pos (by omega : q - activeTotal s > 0)]
  have harith : q - (q - activeTotal s) = activeTotal s := by omega
  rw [harith]

theorem add_stock_ok_consistent {s : ProductState} {q c : Int} {bno : Option String}
    {e : Option Int} {loc : Option String} {r n : String} {s' : ProductState} {st : Stock}
    (h : add_stock s q c bno e loc r n = .ok (s', st)) : consistent s' := by
  unfold add_stock at h
  dsimp only at h
  split at h
  · simp at h
  · rename_i s2 m2 heq
    split at h
    · simp at h
      rw [← h.1]
      exact movementSave_ok_consistent heq
    · simp at h
      rw [← h.1]
      exact movementSave_ok_consistent heq

theorem add_stock_nonpos (s : ProductState) (q c : Int) (bno : Option String)
    (e : Option Int) (loc : Option String) (r n : String) (hq : q ≤ 0) :
    add_stock s q c bno e loc r n =
      .error "Stock IN movements must have positive quantity" := by
  unfold add_stock
  dsimp only
  rw [movementSave_in_nonpos _ _ _ _ _ _ hq]

theorem removeLoop_ok_consistent (reference note : String) (l : List Stock) :
    ∀ (s : ProductState) (remaining : Int) (acc : List StockMovement)
      (s' : ProductState) (acc' : List StockMovement) (rem' : Int),
    removeLoop reference note s l remaining acc = .ok (s', acc', rem') →
    consistent s' ∨ s' = s := by
  induction l with
  | nil =>
      intro s remaining acc s' acc' rem' h
      rw [removeLoop] at h
      simp at h
      exact Or.inr h.1.symm
  | cons b rest ih =>
      intro s remaining acc s' acc' rem' h
      rw [removeLoop] at h
      split at h
      · simp at h
        exact Or.inr h.1.symm
      · dsimp only at h
        split at h
        · simp at h
        · rename_i s1 m heq
          rcases ih _ _ _ _ _ _ h with hcons | hEq
          · exact Or.inl hcons
          · rw [hEq]
            exact Or.inl (movementSave_ok_consistent heq)

theorem remove_stock_ok_consistent {s : ProductState} {q : Int} {r n : String} {f : Bool}
    {s' : ProductState} {ms : List StockMovement}
    (h : remove_stock s q r n f = .ok (s', ms)) : consistent s' ∨ s' = s := by
  unfold remove_stock at h
  split at h
  · simp at h
  · dsimp only at h
    split at h
    · simp at h
    · rename_i s1 mc rem heq
      split at h
      · simp at h
      · simp at h
        rcases removeLoop_ok_consistent r n _ _ _ _ _ _ _ heq with hc | hEq
        · rw [← h.1]
          exact Or.inl hc
        · rw [← h.1, hEq]
          exact Or.inr rfl

theorem mostRecentActive_mem {s : ProductState} {b : Stock}
    (h : mostRecentActive s = some b) : b ∈ s.stock_entries := by
  unfold mostRecentActive at h
  have hb : b ∈ sortStocks lifoLe (s.stock_entries.filter (fun x => x.is_active)) := by
    cases hl : sortStocks lifoLe (s.stock_entries.filter (fun x => x.is_active)) with
    | nil => rw [hl] at h; simp at h
    | cons x xs =>
        rw [hl] at h
        simp at h
        rw [← h]
        exact List.mem_cons_self _ _
  rw [mem_sortStocks] at hb
  exact List.mem_of_mem_filter hb

theorem adjust_noop (s : ProductState) (r n : String) :
    adjust_stock s s.quantity r n = .ok (s, none) := by
  unfold adjust_stock
  dsimp only
  rw [if_pos (sub_self s.quantity)]

theorem adjust_stock_ok_consistent {s : ProductState} {t : Int} {r n : String}
    {s' : ProductState} {mo : Option StockMovement}
    (hc : consistent s) (h : adjust_stock s t r n = .ok (s', mo)) : consistent s' := by
  unfold adjust_stock at h
  dsimp only at h
  split at h
  · simp at h
    rw [← h.1]
    exact hc
  · split at h
    · split at h
      · split at h
        · simp at h
        · rename_i s1 m heq
          simp at h
          rw [← h.1]
          exact movementSave_ok_consistent heq
      · split at h
        · simp at h
        · rename_i s1 m heq
          simp at h
          rw [← h.1]
          exact movementSave_ok_consistent heq
    · split at h
      · simp at h
      · rename_i s1 ms heq
        simp at h
        rcases remove_stock_ok_consistent heq with hcs | hEq
        · rw [← h.1]
          exact hcs
        · rw [← h.1, hEq]
          exact hc

theorem applyOp_consistent {s s' : ProductState} {op : Op}
    (hc : consistent s) (h : applyOp s op = .ok s') : consistent s' := by
  cases op with
  | add q c b e l r n =>
      unfold applyOp at h
      dsimp only at h
      cases hA : add_stock s q c b e l r n with
      | error e2 => rw [hA] at h; simp [Except.map] at h
      | ok p =>
          obtain ⟨s2, st⟩ := p
          rw [hA] at h
          simp [Except.map] at h
          rw [← h]
          exact add_stock_ok_consistent hA
  | remove q r n f =>
      unfold applyOp at h
      dsimp only at h
      cases hA : remove_stock s q r n f with
      | error e2 => rw [hA] at h; simp [Except.map] at h
      | ok p =>
          obtain ⟨s2, ms⟩ := p
          rw [hA] at h
          simp [Except.map] at h
          rw [← h]
          rcases remove_stock_ok_consistent hA with hcs | hEq
          · exact hcs
          · rw [hEq]; exact hc
  | adjust t r n =>
      unfold applyOp at h
      dsimp only at h
      cases hA : adjust_stock s t r n with
      | error e2 => rw [hA] at h; simp [Except.map] at h
      | ok p =>
          obtain ⟨s2, mo⟩ := p
          rw [hA] at h
          simp [Except.map] at h
          rw [← h]
          exact adjust_stock_ok_consistent hc hA

theorem runOps_consistent (ops : List Op) :
    ∀ (s : ProductState), consistent s →
    ∀ (s' : ProductState), runOps s ops = .ok s' → consistent s' := by
  induction ops with
  | nil =>
      intro s hc s' h
      rw [runOps] at h
      simp at h
      rw [← h]
      exact hc
  | cons op rest ih =>
      intro s hc s' h
      rw [runOps] at h
      split at h
      · simp at h
      · rename_i s1 heq
        exact ih s1 (applyOp_consistent hc heq) s' h

theorem pywords_ne_nil_ne_empty {name : String} (h : pywords name ≠ []) : name ≠ "" := by
  intro he
  subst he
  exact h rfl

theorem prefixOf_isSome {name : String} (h : pywords name ≠ []) :
    ∃ p, prefixOf name = some p := by
  unfold prefixOf
  cases hw : pywords name with
  | nil => exact absurd hw h
  | cons w rest =>
      dsimp only
      split
      · exact ⟨_, rfl⟩
      · exact ⟨_, rfl⟩

theorem pyTake_data_length (s : String) (n : Nat) :
    (pyTake s n).data.length = min n s.data.length := by
  show (s.data.take n).length = _
  exact List.length_take _ _

theorem pyLjust_data_length (s : String) (n : Nat) (c : Char) :
    (pyLjust s n c).data.length = s.data.length + (n - s.data.length) := by
  show (s.data ++ List.replicate (n - s.data.length) c).length = _
  rw [List.length_append, List.length_replicate]

theorem prefixOf_some_length {name p : String} (h : prefixOf name = some p) :
    p.data.length = 3 := by
  unfold prefixOf at h
  cases hw : pywords name with
  | nil => rw [hw] at h; simp at h
  | cons w rest =>
      rw [hw] at h
      dsimp only at h
      split at h
      · rename_i hlen
        simp at h
        rw [← h, pyTake_data_length]
        exact min_eq_left (by omega)
      · rename_i hlen
        simp at h
        rw [← h, pyLjust_data_length]
        omega

theorem bumpSeq_fst (st : SeqState) (p : String) :
    (bumpSeq st p).fst = (lookupSeq st p).getD 0 + 1 := by
  unfold bumpSeq lookupSeq
  cases h : List.find? (fun e => e.fst = p) st with
  | none => simp
  | some e => simp

theorem string_data_append (a b : String) : (a ++ b).data = a.data ++ b.data := rfl

theorem pyZfill_length (s : String) (n : Nat) (h : s.data.length ≤ n) :
    (pyZfill s n).data.length = n := by
  show (List.replicate (n - s.data.length) '0' ++ s.data).length = n
  rw [List.length_append, List.length_replicate]
  omega

theorem decCharsAux_length (fuel : Nat) :
    ∀ (k n : Nat), n < fuel → n < 10 ^ k → 1 ≤ k → (decCharsAux fuel n).length ≤ k := by
  induction fuel with
  | zero => intro k n h; omega
  | succ f ihf =>
      intro k n hfuel hpow hk
      by_cases h10 : n < 10
      · show (if n < 10 then [Char.ofNat (48 + n)]
            else decCharsAux f (n / 10) ++ [Char.ofNat (48 + n % 10)]).length ≤ k
        rw [if_pos h10]
        simpa using hk
      · show (if n < 10 then [Char.ofNat (48 + n)]
            else decCharsAux f (n / 10) ++ [Char.ofNat (48 + n % 10)]).length ≤ k
        rw [if_neg h10]
        rw [List.length_append]
        have hk2 : 2 ≤ k := by
          by_contra hcon
          have hk1 : k = 1 := by omega
          rw [hk1] at hpow
          simp at hpow
          omega
        have h1 : n / 10 < f := by omega
        have h2 : n / 10 < 10 ^ (k - 1) := by
          rw [Nat.div_lt_iff_lt_mul (by omega : 0 < 10)]
          have hke : 10 ^ (k - 1) * 10 = 10 ^ k := by
            rw [← pow_succ]
            congr 1
            omega
          omega
        have h3 := ihf (k - 1) (n / 10) h1 h2 (by omega)
        simp only [List.length_cons, List.length_nil]
        omega

theorem decChars_length_le (n : Nat) (h : n ≤ 9999) : (decChars n).length ≤ 4 := by
  have h4 : n < 10 ^ 4 := by
    have : (10:Nat) ^ 4 = 10000 := by norm_num
    omega
  exact decCharsAux_length (n + 1) 4 n (by omega) h4 (by omega)

theorem wordsAux_all_ws :
    ∀ (l : List Char), (∀ c ∈ l, c.isWhitespace = true) → wordsAux l [] = [] := by
  intro l
  induction l with
  | nil => intro h; rfl
  | cons c cs ih =>
      intro h
      show (if c.isWhitespace then flushWord [] (wordsAux cs [])
            else wordsAux cs [c]) = []
      rw [if_pos (h c (List.mem_cons_self _ _))]
      show wordsAux cs [] = []
      exact ih (fun c2 hc2 => h c2 (List.mem_cons_of_mem _ hc2))

theorem pywords_all_whitespace {name : String}
    (h : name.data.all Char.isWhitespace = true) : pywords name = [] := by
  unfold pywords
  exact wordsAux_all_ws name.data (List.all_eq_true.mp h)

/-- A concrete product state used by witnesses: one active batch `B1`
holding 30 units at cost 100, aggregate in sync. -/
def sampleProduct : ProductState :=
  { quantity := 30, unit_cost := 0,
    stock_entries := [⟨"B1", none, 30, 100, "", true, 0⟩],
    movements := [], clock := 1 }

theorem sampleProduct_nonneg : nonnegBatches sampleProduct := by
  intro b hb
  simp only [sampleProduct, List.mem_singleton] at hb
  subst hb
  decide

/-- When the run of `ops` from `s` succeeds, the resulting stored
aggregate equals the sum over the active batches (trivially true for a
failed run, which leaves no state behind). -/
def invariantAfter (s : ProductState) (ops : List Op) : Prop :=
  match runOps s ops with
  | .ok s1 => s1.quantity = activeTotal s1
  | .error _ => True

/-- C1: for every product and every finite sequence of successful
`add_stock` / `remove_stock` / `adjust_stock` operations (started from
a state whose stored aggregate matches its batches, as holds for a
fresh product), after the sequence completes the stored aggregate
`quantity` equals the sum of the quantities of the active stock
batches. -/
theorem claim_c1_aggregate_invariant (ops : List Op) (s : ProductState)
    (hc : s.quantity = activeTotal s) : invariantAfter s ops := by
  unfold invariantAfter
  split
  · rename_i s1 hr
    exact runOps_consistent ops s hc s1 hr
  · trivial

set_option maxHeartbeats 1000000 in
theorem claim_c1_witness :
    emptyProduct.quantity = activeTotal emptyProduct ∧
    invariantAfter emptyProduct
      [Op.add 50 100 (some "B1") none none "" "",
       Op.remove 20 "" "" true,
       Op.adjust 35 "" ""] :=
  ⟨rfl, claim_c1_aggregate_invariant
    [Op.add 50 100 (some "B1") none none "" "",
     Op.remove 20 "" "" true,
     Op.adjust 35 "" ""] emptyProduct rfl⟩

/-- C2: removing a quantity strictly greater than the total over the
active batches of a product (whose batch quantities are non-negative,
as the datastore constraint guarantees) yields the insufficient-stock
error carrying the requested and the available amount.  The `.error`
result of the embedding is the rolled-back transaction: no batch
quantity, aggregate, or ledger change persists. -/
theorem claim_c2_insufficient_rollback (s : ProductState) (q : Int) (r n : String)
    (hs : nonnegBatches s) (hgt : activeTotal s < q) :
    remove_stock s q r n true =
      .error ("Insufficient stock. Requested: " ++ toString q ++
              ", Available: " ++ toString (activeTotal s)) :=
  remove_stock_insufficient s q r n hs hgt

theorem claim_c2_witness :
    nonnegBatches sampleProduct ∧ activeTotal sampleProduct < 50 ∧
    remove_stock sampleProduct 50 "" "" true =
      .error ("Insufficient stock. Requested: " ++ toString (50:Int) ++
              ", Available: " ++ toString (activeTotal sampleProduct)) :=
  ⟨sampleProduct_nonneg, by decide,
    claim_c2_insufficient_rollback sampleProduct 50 "" ""
      sampleProduct_nonneg (by decide)⟩

/-- C3: from a fresh product, `add_stock 50 @100` into batch `B1`, then
`add_stock 30 @95` into batch `B2` leaves aggregate 80; a FIFO
`remove_stock 60` then creates exactly two OUT ledger entries, `-50`
against `B1` and `-10` against `B2`, leaving aggregate 20. -/
theorem claim_c3_fifo_scenario :
    (do
      let r1 ← add_stock emptyProduct 50 100 (some "B1") none none "" ""
      let r2 ← add_stock r1.fst 30 95 (some "B2") none none "" ""
      let r3 ← remove_stock r2.fst 60 "" "" true
      Except.ok (r2.fst.quantity, r3.fst.quantity,
        (r3.snd.map (fun m => (m.stock, m.movement_type, m.quantity))),
        r3.snd.length) : Except String _) =
    Except.ok (80, 20,
      [(some "B1", MovementType.OUT, -50), (some "B2", MovementType.OUT, -10)], 2) := rfl

/-- C5: applying a ledger entry to a batch never leaves a batch
negative.  If the batch quantity plus the signed delta would be
negative, `StockMovement.save` is a hard failure (the `.error`
discards every intermediate write — the transaction aborts); and
whenever it succeeds on a state with non-negative batches, every
batch of the resulting state is still non-negative. -/
theorem claim_c5_no_negative_batch (s : ProductState) (b : Stock)
    (mt : MovementType) (q uc : Int) (r n : String) :
    (b.quantity + q < 0 → ∃ e, movementSave s (some b) mt q uc r n = .error e) ∧
    (nonnegBatches s →
      match movementSave s (some b) mt q uc r n with
      | .ok p => nonnegBatches p.fst
      | .error _ => True) := by
  constructor
  · exact movementSave_neg_fails s b mt q uc r n
  · intro hs
    cases hm : movementSave s (some b) mt q uc r n with
    | error e => trivial
    | ok p =>
        obtain ⟨s', m⟩ := p
        exact movementSave_ok_nonneg hs hm

theorem claim_c5_witness :
    ((⟨"B1", none, 30, 100, "", true, 0⟩ : Stock).quantity + -40 < 0 ∧
      (∃ e, movementSave sampleProduct (some ⟨"B1", none, 30, 100, "", true, 0⟩)
        .OUT (-40) 100 "" "" = .error e)) ∧
    (nonnegBatches sampleProduct ∧
      (match movementSave sampleProduct (some ⟨"B1", none, 30, 100, "", true, 0⟩)
          .OUT (-10) 100 "" "" with
        | .ok p => nonnegBatches p.fst
        | .error _ => True)) :=
  ⟨⟨by decide,
    (claim_c5_no_negative_batch sampleProduct ⟨"B1", none, 30, 100, "", true, 0⟩
      .OUT (-40) 100 "" "").1 (by decide)⟩,
   ⟨sampleProduct_nonneg,
    (claim_c5_no_negative_batch sampleProduct ⟨"B1", none, 30, 100, "", true, 0⟩
      .OUT (-10) 100 "" "").2 sampleProduct_nonneg⟩⟩

/-- C8: aggregate recomputation is idempotent: a second
`update_quantity_from_stock` with no intervening mutation returns the
state unchanged and reports `false` — no write is performed. -/
theorem claim_c8_recompute_idempotent (s : ProductState) :
    update_quantity_from_stock ((update_quantity_from_stock s).fst) =
      ((update_quantity_from_stock s).fst, false) := by
  have h1 : ((update_quantity_from_stock s).fst).quantity =
      activeTotal ((update_quantity_from_stock s).fst) := update_fst_consistent s
  set X := (update_quantity_from_stock s).fst with hX
  rw [update_quantity_from_stock]
  simp [h1]

/-- C9: `add_stock` with a non-positive quantity fails with the
`ValidationError` raised by `StockMovement.clean` ("Stock IN movements
must have positive quantity"); the `.error` result is the rolled-back
transaction, so no batch mutation and no ledger entry persists. -/
theorem claim_c9_add_nonpositive_rejected (s : ProductState) (q c : Int)
    (bno : Option String) (e : Option Int) (loc : Option String) (r n : String)
    (hq : q ≤ 0) :
    add_stock s q c bno e loc r n =
      .error "Stock IN movements must have positive quantity" :=
  add_stock_nonpos s q c bno e loc r n hq

theorem claim_c9_witness :
    (0 : Int) ≤ 0 ∧
    add_stock sampleProduct 0 100 (some "B1") none none "" "" =
      .error "Stock IN movements must have positive quantity" :=
  ⟨by decide,
    claim_c9_add_nonpositive_rejected sampleProduct 0 100 (some "B1") none none "" ""
      (by decide)⟩

/-- C4: `adjust_stock` to a target above the current stored aggregate
creates exactly one ADJUST ledger entry of quantity target − current
(against the most recently created active batch, or a freshly created
zero-quantity `ADJ-` batch when none exists) and returns it; a target
below the current aggregate (with the aggregate in sync and target
non-negative) delegates to FIFO removal, appending only OUT entries
whose magnitudes sum to current − target and returning nothing; a
target equal to the current aggregate is a no-op returning nothing. -/
theorem claim_c4_adjust_stock :
    (∀ (s : ProductState) (t : Int) (r n : String),
      nonnegBatches s → s.quantity < t →
      ∃ s' m, adjust_stock s t r n = .ok (s', some m) ∧
        m.movement_type = .ADJUST ∧ m.quantity = t - s.quantity ∧
        s'.movements = s.movements ++ [m] ∧
        m.stock = some (match mostRecentActive s with
          | some b => b.batch_no
          | none => "ADJ-" ++ pyStr s.clock)) ∧
    (∀ (s : ProductState) (t : Int) (r n : String),
      nonnegBatches s → s.quantity = activeTotal s → 0 ≤ t → t < s.quantity →
      ∃ s' newms, adjust_stock s t r n = .ok (s', none) ∧
        s'.movements = s.movements ++ newms ∧
        (∀ m ∈ newms, m.movement_type = .OUT) ∧
        sumOut newms = s.quantity - t) ∧
    (∀ (s : ProductState) (r n : String),
      adjust_stock s s.quantity r n = .ok (s, none)) := by
  refine ⟨?_, ?_, fun s r n => adjust_noop s r n⟩
  · intro s t r n hs hlt
    unfold adjust_stock
    rw [if_neg (by omega : ¬ (t - s.quantity = 0))]
    dsimp only
    rw [if_pos (by omega : t - s.quantity > 0)]
    cases hm : mostRecentActive s with
    | some recent =>
        dsimp only
        have hmem := mostRecentActive_mem hm
        have hnn : 0 ≤ recent.quantity + (t - s.quantity) := by
          have := hs recent hmem
          omega
        rw [movementSave_adjust_eq s recent (t - s.quantity) recent.unit_cost r _ hnn]
        refine ⟨_, _, rfl, rfl, rfl, ?_, rfl⟩
        simp [update_fst_movements]
    | none =>
        dsimp only
        rw [movementSave_adjust_eq _ _ (t - s.quantity) s.unit_cost r _
          (by show (0:Int) ≤ 0 + (t - s.quantity); omega)]
        refine ⟨_, _, rfl, rfl, rfl, ?_, rfl⟩
        simp [update_fst_movements]
  · intro s t r n hs hcons ht hlt
    have habs : abs (t - s.quantity) = s.quantity - t := by
      rw [abs_of_neg (by omega : t - s.quantity < 0), neg_sub]
    obtain ⟨s', ms, heq, hout, hsum, hmov, _⟩ :=
      remove_stock_ok s (abs (t - s.quantity)) r
        (if n = "" then "Stock adjustment" else n) hs
        (by rw [habs]; omega) (by rw [habs]; omega)
    refine ⟨s', ms, ?_, hmov, fun m hm => (hout m hm).1, by rw [hsum, habs]⟩
    unfold adjust_stock
    rw [if_neg (by omega : ¬ (t - s.quantity = 0))]
    dsimp only
    rw [if_neg (by omega : ¬ (t - s.quantity > 0)), heq]

theorem claim_c4_witness :
    (∃ s' m, adjust_stock sampleProduct 50 "" "" = .ok (s', some m) ∧
      m.movement_type = .ADJUST ∧ m.quantity = 50 - sampleProduct.quantity ∧
      s'.movements = sampleProduct.movements ++ [m] ∧
      m.stock = some (match mostRecentActive sampleProduct with
        | some b => b.batch_no
        | none => "ADJ-" ++ pyStr sampleProduct.clock)) ∧
    (∃ s' newms, adjust_stock sampleProduct 10 "" "" = .ok (s', none) ∧
      s'.movements = sampleProduct.movements ++ newms ∧
      (∀ m ∈ newms, m.movement_type = .OUT) ∧
      sumOut newms = sampleProduct.quantity - 10) ∧
    adjust_stock sampleProduct sampleProduct.quantity "" "" = .ok (sampleProduct, none) :=
  ⟨claim_c4_adjust_stock.1 sampleProduct 50 "" "" sampleProduct_nonneg (by decide),
   claim_c4_adjust_stock.2.1 sampleProduct 10 "" "" sampleProduct_nonneg
     (by decide) (by decide) (by decide),
   claim_c4_adjust_stock.2.2 sampleProduct "" ""⟩

/-- C6: for every category/product name pair on which prefix
derivation is defined (at least one word each), `generate_preview_sku`
is a pure read (the sequence table it returns is the input table
unchanged), and an immediately following `generate_sku` with no
interleaved allocation returns the very same SKU string: generate
allocates exactly the sequence number that preview reported. -/
theorem claim_c6_preview_then_generate (st : SeqState) (cat prod fb : String)
    (hc : pywords cat ≠ []) (hp : pywords prod ≠ []) :
    ∃ sku st2,
      generate_preview_sku st (some cat) (some prod) = some (sku, st) ∧
      generate_sku st cat prod false fb = some (sku, st2) := by
  obtain ⟨cp, hcp⟩ := prefixOf_isSome hc
  obtain ⟨pp, hpp⟩ := prefixOf_isSome hp
  refine ⟨(cp ++ "-" ++ pp) ++ "-" ++
      pyZfill (pyStr ((lookupSeq st (cp ++ "-" ++ pp)).getD 0 + 1)) 4,
    (bumpSeq st (cp ++ "-" ++ pp)).snd, ?_, ?_⟩
  · unfold generate_preview_sku
    dsimp only
    rw [if_neg (pywords_ne_nil_ne_empty hc), if_neg (pywords_ne_nil_ne_empty hp),
      hcp, hpp]
  · unfold generate_sku
    rw [hcp, hpp]
    dsimp only
    rw [if_neg (by decide : ¬ (false = true)), bumpSeq_fst]

theorem claim_c6_witness :
    pywords "Electronics" ≠ [] ∧ pywords "Smartphone" ≠ [] ∧
    ∃ sku st2,
      generate_preview_sku [("ELE-SMA", 41)] (some "Electronics") (some "Smartphone") =
        some (sku, [("ELE-SMA", 41)]) ∧
      generate_sku [("ELE-SMA", 41)] "Electronics" "Smartphone" false "FB" =
        some (sku, st2) :=
  ⟨by decide, by decide,
   claim_c6_preview_then_generate [("ELE-SMA", 41)] "Electronics" "Smartphone" "FB"
     (by decide) (by decide)⟩

/-- C7 counterexample: the whitespace name " " is a non-empty string,
yet prefix derivation yields no prefix at all (the source raises
IndexError on `words[0]`) and SKU generation returns no SKU — so the
claim's "for every non-empty category and product name" is false as
stated. -/
theorem claim_c7_counterexample :
    (" " ≠ "") ∧ prefixOf " " = none ∧
    generate_sku [] "Electronics" " " false "FB" = none := by
  refine ⟨by decide, by decide, by decide⟩

/-- C7 (amended: "non-empty" strengthened to "containing at least one
whitespace-separated word", the only inputs on which the derivation is
defined): the derived prefix is exactly 3 characters; the generated
SKU is `{catPrefix}-{prodPrefix}-{4-digit-zero-padded-sequence}` and
is 12 characters wide for sequence numbers up to 9999; in particular
("Electronics","Smartphone") yields prefix "ELE-SMA" (SKU
"ELE-SMA-0001") and ("A","B") yields "AXX-BXX" (SKU "AXX-BXX-0001"). -/
theorem claim_c7_prefix_and_format :
    (∀ name : String, pywords name ≠ [] →
      ∃ p, prefixOf name = some p ∧ p.data.length = 3) ∧
    (∀ (st : SeqState) (cat prod fb cp pp : String),
      prefixOf cat = some cp → prefixOf prod = some pp →
      (bumpSeq st (cp ++ "-" ++ pp)).fst ≤ 9999 →
      generate_sku st cat prod false fb =
        some ((cp ++ "-" ++ pp) ++ "-" ++
          pyZfill (pyStr (bumpSeq st (cp ++ "-" ++ pp)).fst) 4,
          (bumpSeq st (cp ++ "-" ++ pp)).snd) ∧
      ((cp ++ "-" ++ pp) ++ "-" ++
        pyZfill (pyStr (bumpSeq st (cp ++ "-" ++ pp)).fst) 4).data.length = 12) ∧
    generate_sku [] "Electronics" "Smartphone" false "FB" =
      some ("ELE-SMA-0001", [("ELE-SMA", 1)]) ∧
    generate_sku [] "A" "B" false "FB" =
      some ("AXX-BXX-0001", [("AXX-BXX", 1)]) := by
  refine ⟨?_, ?_, by decide, by decide⟩
  · intro name h
    obtain ⟨p, hp⟩ := prefixOf_isSome h
    exact ⟨p, hp, prefixOf_some_length hp⟩
  · intro st cat prod fb cp pp hcp hpp hle
    constructor
    · unfold generate_sku
      rw [hcp, hpp]
      dsimp only
      rw [if_neg (by decide : ¬ (false = true))]
    · have hz : (pyZfill (pyStr (bumpSeq st (cp ++ "-" ++ pp)).fst) 4).data.length = 4 := by
        apply pyZfill_length
        show (decChars (bumpSeq st (cp ++ "-" ++ pp)).fst).length ≤ 4
        exact decChars_length_le _ hle
      have hcp3 := prefixOf_some_length hcp
      have hpp3 := prefixOf_some_length hpp
      have hdash : ("-" : String).data.length = 1 := rfl
      simp only [string_data_append, List.length_append, hdash, hcp3, hpp3, hz]

theorem claim_c7_witness :
    (pywords "Electronics" ≠ [] ∧
      ∃ p, prefixOf "Electronics" = some p ∧ p.data.length = 3) ∧
    (prefixOf "Electronics" = some "ELE" ∧ prefixOf "Smartphone" = some "SMA" ∧
      (bumpSeq [] ("ELE" ++ "-" ++ "SMA")).fst ≤ 9999 ∧
      (generate_sku [] "Electronics" "Smartphone" false "FB" =
        some (("ELE" ++ "-" ++ "SMA") ++ "-" ++
          pyZfill (pyStr (bumpSeq [] ("ELE" ++ "-" ++ "SMA")).fst) 4,
          (bumpSeq [] ("ELE" ++ "-" ++ "SMA")).snd) ∧
       (("ELE" ++ "-" ++ "SMA") ++ "-" ++
         pyZfill (pyStr (bumpSeq [] ("ELE" ++ "-" ++ "SMA")).fst) 4).data.length = 12)) :=
  ⟨⟨by decide, claim_c7_prefix_and_format.1 "Electronics" (by decide)⟩,
   ⟨by decide, by decide, by decide,
    claim_c7_prefix_and_format.2.1 [] "Electronics" "Smartphone" "FB" "ELE" "SMA"
      (by decide) (by decide) (by decide)⟩⟩

/-- C10: if the category name or the product name is empty or contains
only whitespace characters, SKU generation produces no SKU at all:
the IndexError of prefix derivation (modelled as `none`) propagates
to the caller uncaught, because the prefix is computed before the
allocation try-block — in particular the result is `none` even when
allocation would fail, so the random-suffix fallback is never reached
for such input. -/
theorem claim_c10_blank_name_no_sku (st : SeqState) (cat prod : String)
    (allocFails : Bool) (fb : String)
    (h : cat.data.all Char.isWhitespace = true ∨
         prod.data.all Char.isWhitespace = true) :
    generate_sku st cat prod allocFails fb = none := by
  unfold generate_sku
  rcases h with h | h
  · have hp : prefixOf cat = none := by
      unfold prefixOf
      rw [pywords_all_whitespace h]
    rw [hp]
  · have hp : prefixOf prod = none := by
      unfold prefixOf
      rw [pywords_all_whitespace h]
    rw [hp]
    cases prefixOf cat <;> rfl

theorem claim_c10_witness :
    (" ".data.all Char.isWhitespace = true ∨
      "PRD".data.all Char.isWhitespace = true) ∧
    generate_sku [] " " "PRD" true "FALLBACK" = none :=
  ⟨Or.inl (by decide),
   claim_c10_blank_name_no_sku [] " " "PRD" true "FALLBACK" (Or.inl (by decide))⟩

end BizPos
